import Mathlib

/-!
Verification of the Wheel Strategy Screener core (src/app.py, src/utils.py).

Prices and Greeks are idealized as rationals. Pandas/numpy float columns can
hold missing (NaN) or non-finite (inf) values; we model such a column value
as `Option ℚ`, with `none` standing for a non-finite or missing float. The
arithmetic helpers below reproduce the pandas semantics the code relies on:
a NaN operand poisons a sum/product, division by zero produces a non-finite
float, and a comparison against NaN is false.
-/

namespace Wheeler

/-- A raw option-contract row as returned by `fetch_options` (the
`attributes.*` columns of src/app.py). `bid`/`ask` are `Option ℚ`: `none`
models a missing (null/NaN) quote. `exp_date` is the expiration date as a
day count, so that `DTE = exp_date - today`. -/
structure RawRow where
  exp_date : Int
  strike : ℚ
  bid : Option ℚ
  ask : Option ℚ
  delta : ℚ
  type : String
  oi : ℚ
  volume : ℚ
deriving DecidableEq

/-- Pandas addition on possibly-missing values: a NaN operand poisons the
result. `calculate_metrics` applies no `fillna`, so this is the semantics of
`df['attributes.bid'] + df['attributes.ask']`. -/
def fadd : Option ℚ → Option ℚ → Option ℚ
  | some a, some b => some (a + b)
  | _, _ => none

/-- Pandas subtraction with NaN propagation. -/
def fsub : Option ℚ → Option ℚ → Option ℚ
  | some a, some b => some (a - b)
  | _, _ => none

/-- Pandas multiplication with NaN/non-finite propagation. -/
def fmul : Option ℚ → Option ℚ → Option ℚ
  | some a, some b => some (a * b)
  | _, _ => none

/-- Pandas true division: a zero denominator yields a non-finite float
(inf or NaN), modelled as `none`, as does a missing operand. -/
def fdiv : Option ℚ → Option ℚ → Option ℚ
  | some a, some b => if b = 0 then none else some (a / b)
  | _, _ => none

/-- A screened contract row: the raw attributes plus the derived columns that
`calculate_metrics` adds to the frame. The derived price columns are
`Option ℚ` because a missing quote or a zero denominator yields a non-finite
float in the actual frame. -/
structure SRow where
  raw : RawRow
  DTE : Int
  mid : Option ℚ
  capital_required : ℚ
  breakeven : Option ℚ
  annualized_yield : Option ℚ
  yield_per_dollar : Option ℚ
deriving DecidableEq

/-- One row of `calculate_metrics` (src/app.py lines 42-51):
`DTE = exp_date - today`, `mid = (bid + ask) / 2` with no null handling,
`capital_required = strike * 100`, breakeven with the sign chosen by `isPut`
(the caller passes the type test of the FIRST row of the frame, since the
code branches on `df['attributes.type'][0] == 'put'`),
`annualized_yield = (mid / strike) * (365 / DTE)`, and
`yield_per_dollar = mid / capital_required`. -/
def mkRow (isPut : Bool) (today : Int) (r : RawRow) : SRow :=
  let dte : Int := r.exp_date - today
  let mid := fdiv (fadd r.bid r.ask) (some 2)
  let cap : ℚ := r.strike * 100
  { raw := r
    DTE := dte
    mid := mid
    capital_required := cap
    breakeven := if isPut then fsub (some r.strike) mid else fadd (some r.strike) mid
    annualized_yield := fmul (fdiv mid (some r.strike)) (fdiv (some 365) (some (dte : ℚ)))
    yield_per_dollar := fdiv mid (some cap) }

/-- `calculate_metrics` over a whole frame. The breakeven branch tests the
option type of the first row only (`df['attributes.type'][0]`); on an empty
frame that positional lookup raises, which we model as `none`. -/
def calculate_metrics (today : Int) (rows : List RawRow) : Option (List SRow) :=
  match rows.head? with
  | none => none
  | some h => some (rows.map (mkRow (h.type == "put") today))

/-- The sidebar filter thresholds (`user_settings` in src/app.py). The DTE
bounds are integers (sliders), the rest are rationals. -/
structure UserFilterSettings where
  min_bid : ℚ
  min_dte : Int
  max_dte : Int
  min_delta : ℚ
  max_delta : ℚ
  max_capital : ℚ
deriving DecidableEq

/-- Pandas comparison `column >= x`: a NaN (missing) value compares false. -/
def fge (o : Option ℚ) (x : ℚ) : Bool :=
  match o with
  | none => false
  | some m => decide (x ≤ m)

/-- The boolean conjunction of `apply_filters` (src/app.py lines 53-61). -/
def passes (s : UserFilterSettings) (r : SRow) : Bool :=
  fge r.mid s.min_bid &&
  decide (s.min_dte ≤ r.DTE) && decide (r.DTE ≤ s.max_dte) &&
  decide (s.min_delta ≤ |r.raw.delta|) && decide (|r.raw.delta| ≤ s.max_delta) &&
  decide (r.capital_required ≤ s.max_capital)

/-- `apply_filters` (src/app.py lines 53-61): boolean row selection on the
conjunction of the six comparisons. -/
def apply_filters (rows : List SRow) (s : UserFilterSettings) : List SRow :=
  rows.filter (passes s)

/-- Round to the nearest integer, ties to even: the rounding rule of
Python's built-in `round`. -/
def roundHalfEven (x : ℚ) : ℤ :=
  if Int.fract x < 1 / 2 then ⌊x⌋
  else if 1 / 2 < Int.fract x then ⌊x⌋ + 1
  else if ⌊x⌋ % 2 = 0 then ⌊x⌋ else ⌊x⌋ + 1

/-- Python's `round(x, n)` on the rational idealization of floats. -/
def pyRound (n : ℕ) (x : ℚ) : ℚ := (roundHalfEven (x * 10 ^ n) : ℚ) / 10 ^ n

/-- `calculate_pop` (src/utils.py lines 4-5): `round(1 - abs(delta), 4)`.
There is no domain validation of `delta` anywhere in the code. -/
def calculate_pop (delta : ℚ) : ℚ := pyRound 4 (1 - |delta|)

/-- `calculate_ev` (src/utils.py lines 7-11). -/
def calculate_ev (premium capital pop : ℚ) : ℚ :=
  let max_loss := capital - premium * 100
  let max_gain := premium * 100
  let ev := pop * max_gain - (1 - pop) * max_loss
  pyRound 2 ev

/-- `np.linspace a b n`: `n` evenly spaced samples from `a` to `b`
inclusive (for `n ≥ 2`). -/
def linspace (a b : ℚ) (n : ℕ) : List ℚ :=
  (List.range n).map (fun i : ℕ => a + (b - a) * (i : ℚ) / ((n - 1 : ℕ) : ℚ))

/-- The put payoff sampled by `generate_pl_chart`:
`(strike - price) * 100 + premium * 100` below the strike, the flat
`premium * 100` at or above it. -/
def put_pl (strike premium price : ℚ) : ℚ :=
  if price < strike then (strike - price) * 100 + premium * 100 else premium * 100

/-- The call payoff sampled by `generate_pl_chart` (the mirrored branch). -/
def call_pl (strike premium price : ℚ) : ℚ :=
  if strike < price then (price - strike) * 100 + premium * 100 else premium * 100

/-- The (price, P/L) data of `generate_pl_chart` (src/utils.py lines 13-18):
100 prices linearly spaced over `[0.8 * strike, 1.2 * strike]` with the
piecewise payoff. Rendering the figure itself is outside the model. -/
def generate_pl_chart (strike premium : ℚ) (opt_type : String) : List (ℚ × ℚ) :=
  (linspace (strike * (4 / 5)) (strike * (6 / 5)) 100).map
    (fun p => (p, if opt_type == "put" then put_pl strike premium p
                  else call_pl strike premium p))

/-- The sort direction table of src/app.py line 147:
`ascending = sort_by in ['breakeven', 'DTE', 'capital_required']`. -/
def ascending_for (sort_by : String) : Bool :=
  sort_by == "breakeven" || sort_by == "DTE" || sort_by == "capital_required"

/-- Models `DataFrame.sort_values(by=key, ascending=asc)` on a single
column: pandas (`nargsort`) computes an ascending argsort of the key column
and, when `ascending=False`, reverses that whole indexer. The argsort is
modelled by an insertion sort. For the default numpy quicksort this model is
exact only on small frames: numpy's introsort runs plain insertion sort on
arrays below its small-array cutoff (about 16 elements) and is stable there,
while larger arrays are partitioned and may reorder tied elements.
Accordingly only the sortedness and permutation consequences of this
definition, which hold of quicksort at every input size, are asserted
unconditionally below; tie-order statements carry an explicit length bound
confining them to the insertion-sort regime. -/
def sort_values (key : SRow → ℚ) (ascending : Bool) (rows : List SRow) : List SRow :=
  let s := List.insertionSort (fun x y => key x ≤ key y) rows
  if ascending then s else s.reverse

/-- Modelled from the spec: the §3 formula for annualized yield,
`(mid / capital_required) * (365 / DTE) * 100`, used to state the
refinement claim against the code's `(mid / strike) * (365 / DTE)`. -/
def annualized_yield_spec (mid capital dte : ℚ) : ℚ :=
  mid / capital * (365 / dte) * 100

/-- A put row with strike 50 and mid 2 (bid = ask = 2). -/
def putRow : RawRow :=
  { exp_date := 30, strike := 50, bid := some 2, ask := some 2,
    delta := -3 / 10, type := "put", oi := 100, volume := 10 }

/-- A call row with strike 50 and mid 2 (bid = ask = 2). -/
def callRow : RawRow :=
  { exp_date := 30, strike := 50, bid := some 2, ask := some 2,
    delta := 3 / 10, type := "call", oi := 100, volume := 10 }

/-- A row expiring today: DTE = 0. -/
def expiredRow : RawRow :=
  { exp_date := 0, strike := 50, bid := some 1, ask := some 1,
    delta := -2 / 10, type := "put", oi := 5, volume := 5 }

/-- A row whose bid quote is missing (null). -/
def noBidRow : RawRow :=
  { exp_date := 30, strike := 50, bid := none, ask := some 1,
    delta := -2 / 10, type := "put", oi := 5, volume := 5 }

/-- Two put rows that tie on open interest but differ elsewhere. -/
def tieRowA : RawRow :=
  { exp_date := 30, strike := 50, bid := some 1, ask := some 1,
    delta := -2 / 10, type := "put", oi := 100, volume := 10 }

/-- Second row of the open-interest tie. -/
def tieRowB : RawRow :=
  { exp_date := 30, strike := 55, bid := some 1, ask := some 1,
    delta := -2 / 10, type := "put", oi := 100, volume := 20 }

/-- The sidebar defaults of src/app.py (with a capital cap loose enough to
keep a strike-50 contract). -/
def defaultSettings : UserFilterSettings :=
  { min_bid := 3 / 10, min_dte := 10, max_dte := 60,
    min_delta := 15 / 100, max_delta := 4 / 10, max_capital := 10000 }

/-! Helper lemmas. -/

/-- Half-even rounding never goes below the floor, so it is nonnegative on
nonnegative inputs. -/
theorem roundHalfEven_nonneg (x : ℚ) (hx : 0 ≤ x) : 0 ≤ roundHalfEven x := by
  have hf : (0 : ℤ) ≤ ⌊x⌋ := Int.floor_nonneg.mpr hx
  unfold roundHalfEven
  split_ifs <;> omega

/-- Half-even rounding never exceeds an integer upper bound of its input. -/
theorem roundHalfEven_le (x : ℚ) (n : ℤ) (hx : x ≤ (n : ℚ)) :
    roundHalfEven x ≤ n := by
  have hfl : ⌊x⌋ ≤ n := by
    have := Int.floor_le_floor hx
    simpa using this
  have hstep : ¬Int.fract x < 1 / 2 → ⌊x⌋ + 1 ≤ n := by
    intro h
    rcases lt_or_eq_of_le hfl with h' | h'
    · omega
    · exfalso
      apply h
      have hxn : x = (n : ℚ) := by
        have h1 : (n : ℚ) ≤ x := by
          calc (n : ℚ) = ((⌊x⌋ : ℤ) : ℚ) := by rw [h']
          _ ≤ x := Int.floor_le x
        exact le_antisymm hx h1
      have : Int.fract x = 0 := by
        rw [hxn]
        exact Int.fract_intCast n
      rw [this]; norm_num
  unfold roundHalfEven
  split_ifs with h1 h2 h3 <;> first | exact hfl | exact hstep h1

/-- Half-even rounding is the identity on integers. -/
theorem roundHalfEven_intCast (n : ℤ) : roundHalfEven ((n : ℤ) : ℚ) = n := by
  unfold roundHalfEven
  rw [Int.fract_intCast, Int.floor_intCast]
  norm_num

/-- Unfolding equation of `fadd` on defined operands. -/
theorem fadd_some_some (a b : ℚ) : fadd (some a) (some b) = some (a + b) := rfl

/-- Unfolding equation of `fdiv` on defined operands. -/
theorem fdiv_some (a b : ℚ) :
    fdiv (some a) (some b) = if b = 0 then none else some (a / b) := rfl

/-- Unfolding equation of `fmul` on defined operands. -/
theorem fmul_some (a b : ℚ) : fmul (some a) (some b) = some (a * b) := rfl

/-- Subtracting an optional value from a defined one is an `Option.map`. -/
theorem fsub_some (s : ℚ) (o : Option ℚ) :
    fsub (some s) o = o.map (fun m => s - m) := by cases o <;> rfl

/-- Adding an optional value to a defined one is an `Option.map`. -/
theorem fadd_some (s : ℚ) (o : Option ℚ) :
    fadd (some s) o = o.map (fun m => s + m) := by cases o <;> rfl

/-- The raw attributes pass through `mkRow` unchanged. -/
theorem mkRow_raw (b : Bool) (today : Int) (r : RawRow) : (mkRow b today r).raw = r := rfl

/-- The breakeven column of `mkRow` as a map over its own mid column, with
the sign chosen by the boolean flag. -/
theorem mkRow_breakeven (b : Bool) (today : Int) (r : RawRow) :
    (mkRow b today r).breakeven =
      (mkRow b today r).mid.map (fun m => if b then r.strike - m else r.strike + m) := by
  cases b <;> simp [mkRow, fsub_some, fadd_some]

/-! Claim theorems. -/

/-- C1: `apply_filters` returns exactly the input rows satisfying all four
predicates: a row is in the output iff it is in the input, its mid is a
defined value at least `min_bid`, its DTE lies in `[min_dte, max_dte]`, its
absolute delta lies in `[min_delta, max_delta]`, and its required capital is
at most `max_capital`. -/
theorem C1_apply_filters (rows : List SRow) (s : UserFilterSettings) (r : SRow) :
    r ∈ apply_filters rows s ↔
      r ∈ rows ∧
      (∃ m, r.mid = some m ∧ s.min_bid ≤ m) ∧
      (s.min_dte ≤ r.DTE ∧ r.DTE ≤ s.max_dte) ∧
      (s.min_delta ≤ |r.raw.delta| ∧ |r.raw.delta| ≤ s.max_delta) ∧
      r.capital_required ≤ s.max_capital := by
  unfold apply_filters passes
  rw [List.mem_filter]
  cases hm : r.mid with
  | none => simp [fge, hm]
  | some m => simp [fge, hm, and_assoc]

/-- C4: the Risk Estimator computes its contract: `calculate_pop` is the
4-digit rounding of `1 - |delta|`, `calculate_ev` is the 2-digit rounding of
`pop * premium * 100 - (1 - pop) * (capital - premium * 100)`, and for every
delta in `[-1, 1]` the resulting pop lies in `[0, 1]`. -/
theorem C4_risk_estimator :
    (∀ d : ℚ, calculate_pop d = pyRound 4 (1 - |d|)) ∧
    (∀ premium capital pop : ℚ,
      calculate_ev premium capital pop =
        pyRound 2 (pop * (premium * 100) - (1 - pop) * (capital - premium * 100))) ∧
    (∀ d : ℚ, -1 ≤ d → d ≤ 1 → 0 ≤ calculate_pop d ∧ calculate_pop d ≤ 1) := by
  refine ⟨fun d => rfl, fun premium capital pop => rfl, fun d h1 h2 => ?_⟩
  have habs : |d| ≤ 1 := abs_le.mpr ⟨h1, h2⟩
  have habs0 : 0 ≤ |d| := abs_nonneg d
  have hlo : (0 : ℚ) ≤ (1 - |d|) * 10 ^ 4 := by nlinarith
  have hhi : (1 - |d|) * 10 ^ 4 ≤ ((10000 : ℤ) : ℚ) := by
    push_cast
    nlinarith
  have r1 : (0 : ℤ) ≤ roundHalfEven ((1 - |d|) * 10 ^ 4) :=
    roundHalfEven_nonneg _ hlo
  have r2 : roundHalfEven ((1 - |d|) * 10 ^ 4) ≤ 10000 :=
    roundHalfEven_le _ 10000 hhi
  unfold calculate_pop pyRound
  constructor
  · apply div_nonneg _ (by norm_num)
    exact_mod_cast r1
  · rw [div_le_one (by norm_num)]
    calc ((roundHalfEven ((1 - |d|) * 10 ^ 4) : ℤ) : ℚ)
        ≤ ((10000 : ℤ) : ℚ) := by exact_mod_cast r2
      _ = 10 ^ 4 := by norm_num

/-- Witness for C4 at `d = 1/2`: the hypotheses `-1 ≤ d ≤ 1` hold and the
pop bound follows by applying the claim theorem. -/
theorem C4_risk_estimator_witness :
    (-1 ≤ (1 / 2 : ℚ) ∧ (1 / 2 : ℚ) ≤ 1) ∧
    (0 ≤ calculate_pop (1 / 2) ∧ calculate_pop (1 / 2) ≤ 1) :=
  ⟨⟨by norm_num, by norm_num⟩,
    C4_risk_estimator.2.2 (1 / 2) (by norm_num) (by norm_num)⟩

/-- C8: the code performs no delta validation at all: at the out-of-domain
delta 2 (`|delta| > 1`) `calculate_pop` silently returns the impossible
probability -1 instead of failing with a ValidationError, and nothing in the
pipeline excludes such a row. -/
theorem C8_code_eval : calculate_pop 2 = -1 := by
  unfold calculate_pop pyRound
  have hx : (1 - |(2 : ℚ)|) * 10 ^ 4 = ((-10000 : ℤ) : ℚ) := by
    rw [abs_of_nonneg (by norm_num : (0 : ℚ) ≤ 2)]
    norm_num
  rw [hx, roundHalfEven_intCast]
  norm_num

/-- C2 counterexample: in a frame whose first row is a put, a call row with
strike 50 and mid 2 gets breakeven 48 (strike - mid), not the 52
(strike + mid) the claim requires for its own option type. -/
theorem C2_counterexample :
    callRow.type = "call" ∧ callRow.strike = 50 ∧
    fdiv (fadd callRow.bid callRow.ask) (some 2) = some 2 ∧
    calculate_metrics 0 [putRow, callRow] =
      some [mkRow true 0 putRow, mkRow true 0 callRow] ∧
    (mkRow true 0 callRow).breakeven = some 48 ∧ (48 : ℚ) ≠ 50 + 2 := by
  refine ⟨rfl, rfl, ?_, ?_, ?_, by norm_num⟩
  · simp [callRow, fadd, fdiv]
  · simp [calculate_metrics, putRow]
  · simp [mkRow, callRow, fadd, fdiv, fsub]
    norm_num

/-- C2 (amended): when every row of the frame has the same option type, each
row's breakeven is strike - mid for a put frame and strike + mid for a call
frame; in particular breakeven(put, strike 50, mid 2) = 48 and
breakeven(call, strike 50, mid 2) = 52. -/
theorem C2_amended :
    (∀ (today : Int) (rows : List RawRow) (out : List SRow),
      calculate_metrics today rows = some out →
      ∀ i (hi : i < out.length),
        ((∀ r ∈ rows, r.type = "put") →
          out[i].breakeven = out[i].mid.map (fun m => out[i].raw.strike - m)) ∧
        ((∀ r ∈ rows, r.type = "call") →
          out[i].breakeven = out[i].mid.map (fun m => out[i].raw.strike + m))) ∧
    (calculate_metrics 0 [putRow]).map (fun l => l.map SRow.breakeven) = some [some 48] ∧
    (calculate_metrics 0 [callRow]).map (fun l => l.map SRow.breakeven) = some [some 52] := by
  refine ⟨?_, ?_, ?_⟩
  · intro today rows out h i hi
    cases rows with
    | nil => simp [calculate_metrics] at h
    | cons a t =>
      simp only [calculate_metrics, List.head?_cons, Option.some.injEq] at h
      subst h
      simp only [List.getElem_map]
      constructor
      · intro hall
        have hput : a.type = "put" := hall a (List.mem_cons_self a t)
        rw [mkRow_breakeven]
        simp [hput, mkRow_raw]
      · intro hall
        have hcall : a.type = "call" := hall a (List.mem_cons_self a t)
        have hflag : (a.type == "put") = false := by
          rw [hcall]; rfl
        rw [mkRow_breakeven]
        simp [hflag, mkRow_raw]
  · simp [calculate_metrics, putRow, mkRow, fadd, fdiv, fsub]
    norm_num
  · simp [calculate_metrics, callRow, mkRow, fadd, fdiv]
    norm_num

/-- Witness for C2 (amended) on the one-row put frame. -/
theorem C2_amended_witness :
    calculate_metrics 0 [putRow] = some [mkRow true 0 putRow] ∧
    ((∀ r ∈ [putRow], r.type = "put") →
      (mkRow true 0 putRow).breakeven =
        (mkRow true 0 putRow).mid.map (fun m => (mkRow true 0 putRow).raw.strike - m)) := by
  have h : calculate_metrics 0 [putRow] = some [mkRow true 0 putRow] := by
    simp [calculate_metrics, putRow]
  refine ⟨h, fun hall => ?_⟩
  have := (C2_amended.1 0 [putRow] [mkRow true 0 putRow] h 0 (by simp)).1 hall
  simpa using this

/-- C10: `calculate_metrics` decides the breakeven sign from the option type
of the first row only: every output row's breakeven is its own strike minus
(respectively plus) its own mid according to whether the FIRST row's type is
"put", regardless of that row's own type. -/
theorem C10_first_row_breakeven (today : Int) (first : RawRow) (rest : List RawRow)
    (out : List SRow) (h : calculate_metrics today (first :: rest) = some out) :
    out.length = rest.length + 1 ∧
    ∀ i (hi : i < out.length),
      out[i].breakeven = out[i].mid.map (fun m =>
        if first.type = "put" then out[i].raw.strike - m else out[i].raw.strike + m) := by
  simp only [calculate_metrics, List.head?_cons, Option.some.injEq] at h
  subst h
  refine ⟨by simp, ?_⟩
  intro i hi
  simp only [List.getElem_map]
  rw [mkRow_breakeven]
  by_cases hp : first.type = "put"
  · simp [hp, mkRow_raw]
  · have hflag : (first.type == "put") = false := beq_eq_false_iff_ne.mpr hp
    simp [hflag, hp, mkRow_raw]

/-- Witness for C10 on a mixed put/call frame whose first row is a put. -/
theorem C10_first_row_breakeven_witness :
    calculate_metrics 0 [putRow, callRow] =
      some [mkRow true 0 putRow, mkRow true 0 callRow] ∧
    ([mkRow true 0 putRow, mkRow true 0 callRow].length = [callRow].length + 1 ∧
      ∀ i (hi : i < [mkRow true 0 putRow, mkRow true 0 callRow].length),
        [mkRow true 0 putRow, mkRow true 0 callRow][i].breakeven =
          [mkRow true 0 putRow, mkRow true 0 callRow][i].mid.map (fun m =>
            if putRow.type = "put" then
              [mkRow true 0 putRow, mkRow true 0 callRow][i].raw.strike - m
            else
              [mkRow true 0 putRow, mkRow true 0 callRow][i].raw.strike + m)) := by
  have h : calculate_metrics 0 [putRow, callRow] =
      some [mkRow true 0 putRow, mkRow true 0 callRow] := by
    simp [calculate_metrics, putRow]
  exact ⟨h, C10_first_row_breakeven 0 putRow [callRow] _ h⟩

/-- C6: the code never excludes DTE ≤ 0 rows and has no guard for DTE = 0:
a row expiring today is carried through `calculate_metrics` and its
annualized_yield is the non-finite float produced by 365/0 (modelled `none`),
silently assigned rather than flagged by any explicit branch. -/
theorem C6_code_eval :
    calculate_metrics 0 [expiredRow] = some [mkRow true 0 expiredRow] ∧
    (mkRow true 0 expiredRow).DTE = 0 ∧
    (mkRow true 0 expiredRow).mid = some 1 ∧
    (mkRow true 0 expiredRow).annualized_yield = none := by
  refine ⟨?_, rfl, ?_, ?_⟩
  · simp [calculate_metrics, expiredRow]
  · simp [mkRow, expiredRow, fadd, fdiv]
  · simp [mkRow, expiredRow, fadd, fdiv, fmul]

/-- C7: a missing bid is NOT coerced to 0: it poisons the mid (NaN), the row
keeps a non-numeric mid instead of (0 + ask)/2, and the NaN mid then fails
the `mid >= min_bid` comparison so the row is silently dropped by the
filter. -/
theorem C7_code_eval :
    (mkRow true 0 noBidRow).mid = none ∧
    (mkRow true 0 noBidRow).mid ≠ some ((0 + 1) / 2) ∧
    apply_filters [mkRow true 0 noBidRow] defaultSettings = [] := by
  refine ⟨?_, ?_, ?_⟩
  · simp [mkRow, noBidRow, fadd, fdiv]
  · simp [mkRow, noBidRow, fadd, fdiv]
  · simp [apply_filters, passes, fge, mkRow, noBidRow, fadd, fdiv]

/-- C3: on rows with defined quotes, positive strike and positive DTE, the
code's annualized yield `(mid / strike) * (365 / DTE)` coincides with the
spec's `(mid / capital_required) * (365 / DTE) * 100` at
`capital_required = strike * 100`. -/
theorem C3_yield_equiv (isPut : Bool) (today : Int) (r : RawRow) (b a : ℚ)
    (hb : r.bid = some b) (ha : r.ask = some a)
    (hdte : 0 < r.exp_date - today) (hstrike : 0 < r.strike) :
    (mkRow isPut today r).annualized_yield =
      some (annualized_yield_spec ((b + a) / 2) (r.strike * 100)
        ((r.exp_date - today : Int) : ℚ)) := by
  have hdq : ((r.exp_date - today : Int) : ℚ) ≠ 0 := Int.cast_ne_zero.mpr hdte.ne'
  have hsq : r.strike ≠ 0 := hstrike.ne'
  simp only [mkRow, hb, ha, fadd_some_some, fdiv_some, annualized_yield_spec]
  rw [if_neg (by norm_num : ¬(2 : ℚ) = 0), if_neg hdq, fdiv_some, if_neg hsq, fmul_some]
  congr 1
  rw [div_mul_eq_div_div]
  ring

/-- Witness for C3 at the concrete put row (strike 50, mid 2, DTE 30). -/
theorem C3_yield_equiv_witness :
    putRow.bid = some 2 ∧ putRow.ask = some 2 ∧
    0 < putRow.exp_date - 0 ∧ 0 < putRow.strike ∧
    (mkRow true 0 putRow).annualized_yield =
      some (annualized_yield_spec ((2 + 2) / 2) (putRow.strike * 100)
        ((putRow.exp_date - 0 : Int) : ℚ)) :=
  ⟨rfl, rfl, by norm_num [putRow], by norm_num [putRow],
    C3_yield_equiv true 0 putRow 2 2 rfl rfl (by norm_num [putRow]) (by norm_num [putRow])⟩

/-- Restricting an ordered insert to a single key value is just consing:
every element the insertion skips over has a strictly smaller key. -/
theorem filter_key_orderedInsert (key : SRow → ℚ) (v : ℚ) (a : SRow) :
    ∀ L : List SRow,
      (List.orderedInsert (fun x y => key x ≤ key y) a L).filter
          (fun x => decide (key x = v)) =
        (a :: L).filter (fun x => decide (key x = v))
  | [] => rfl
  | b :: t => by
    by_cases hab : key a ≤ key b
    · rw [List.orderedInsert, if_pos hab]
    · rw [List.orderedInsert, if_neg hab]
      have hba : key b < key a := lt_of_not_le hab
      have ih := filter_key_orderedInsert key v a t
      by_cases ha : key a = v
      · have hb : ¬ key b = v := by
          intro hbv
          rw [hbv, ha] at hba
          exact lt_irrefl v hba
        simp [List.filter_cons, ih, ha, hb]
      · simp [List.filter_cons, ih, ha]

/-- Insertion sort is stable: restricting the output to any single key value
reproduces the input restricted to that key value, in input order. -/
theorem filter_key_insertionSort (key : SRow → ℚ) (v : ℚ) :
    ∀ l : List SRow,
      (List.insertionSort (fun x y => key x ≤ key y) l).filter
          (fun x => decide (key x = v)) =
        l.filter (fun x => decide (key x = v))
  | [] => rfl
  | a :: t => by
    rw [List.insertionSort, filter_key_orderedInsert key v a]
    simp only [List.filter_cons, filter_key_insertionSort key v t]

/-- C5 (amended): the Ranker's direction table is as claimed
(annualized_yield, yield_per_dollar, oi and volume descending; breakeven,
DTE and capital_required ascending), and `sort_values` always returns a
permutation of its input sorted in the chosen direction. Tie order is not
guaranteed in general (the default numpy quicksort may reorder ties on large
frames); on frames within numpy's small-array insertion-sort regime (at most
16 rows), where the model is exact, ascending sorts preserve the input order
of tied rows while descending sorts reverse it, because pandas reverses the
whole ascending argsort. -/
theorem C5_ranker_amended :
    (ascending_for "annualized_yield" = false ∧ ascending_for "yield_per_dollar" = false ∧
     ascending_for "oi" = false ∧ ascending_for "volume" = false ∧
     ascending_for "breakeven" = true ∧ ascending_for "DTE" = true ∧
     ascending_for "capital_required" = true) ∧
    ∀ (key : SRow → ℚ) (l : List SRow),
      (sort_values key true l).Perm l ∧ (sort_values key false l).Perm l ∧
      (sort_values key true l).Sorted (fun x y => key x ≤ key y) ∧
      (sort_values key false l).Sorted (fun x y => key y ≤ key x) ∧
      (l.length ≤ 16 →
        (∀ v : ℚ, (sort_values key true l).filter (fun x => decide (key x = v)) =
          l.filter (fun x => decide (key x = v))) ∧
        (∀ v : ℚ, (sort_values key false l).filter (fun x => decide (key x = v)) =
          (l.filter (fun x => decide (key x = v))).reverse)) := by
  refine ⟨⟨rfl, rfl, rfl, rfl, rfl, rfl, rfl⟩, ?_⟩
  intro key l
  haveI htot : IsTotal SRow (fun x y => key x ≤ key y) := ⟨fun a b => le_total _ _⟩
  haveI htr : IsTrans SRow (fun x y => key x ≤ key y) :=
    ⟨fun a b c hab hbc => le_trans hab hbc⟩
  have hperm := List.perm_insertionSort (fun x y => key x ≤ key y) l
  have hsorted := List.sorted_insertionSort (fun x y => key x ≤ key y) l
  refine ⟨?_, ?_, ?_, ?_, fun _ => ⟨?_, ?_⟩⟩
  · simpa [sort_values] using hperm
  · simp only [sort_values, if_neg Bool.false_ne_true]
    exact (List.reverse_perm _).trans hperm
  · simpa [sort_values] using hsorted
  · simp only [sort_values, if_neg Bool.false_ne_true]
    exact List.pairwise_reverse.mpr hsorted
  · intro v
    simpa [sort_values] using filter_key_insertionSort key v l
  · intro v
    simp only [sort_values, if_neg Bool.false_ne_true]
    rw [List.filter_reverse, filter_key_insertionSort key v l]

/-- Witness for C5 (amended) on the two-row open-interest tie, discharging
the small-frame length bound. -/
theorem C5_ranker_amended_witness :
    ([mkRow true 0 tieRowA, mkRow true 0 tieRowB] : List SRow).length ≤ 16 ∧
    ((∀ v : ℚ,
        (sort_values (fun r => r.raw.oi) true
            [mkRow true 0 tieRowA, mkRow true 0 tieRowB]).filter
            (fun x => decide (x.raw.oi = v)) =
          ([mkRow true 0 tieRowA, mkRow true 0 tieRowB] : List SRow).filter
            (fun x => decide (x.raw.oi = v))) ∧
     (∀ v : ℚ,
        (sort_values (fun r => r.raw.oi) false
            [mkRow true 0 tieRowA, mkRow true 0 tieRowB]).filter
            (fun x => decide (x.raw.oi = v)) =
          (([mkRow true 0 tieRowA, mkRow true 0 tieRowB] : List SRow).filter
            (fun x => decide (x.raw.oi = v))).reverse)) :=
  ⟨by norm_num,
    (C5_ranker_amended.2 (fun r => r.raw.oi)
      [mkRow true 0 tieRowA, mkRow true 0 tieRowB]).2.2.2.2 (by norm_num)⟩

/-- C5 counterexample: sorting by open interest ("oi") is descending, and two
rows that tie on open interest come out in REVERSED input order, so equal
rows do not preserve their input order. -/
theorem C5_counterexample :
    ascending_for "oi" = false ∧
    (mkRow true 0 tieRowA).raw.oi = (mkRow true 0 tieRowB).raw.oi ∧
    mkRow true 0 tieRowA ≠ mkRow true 0 tieRowB ∧
    sort_values (fun r => r.raw.oi) (ascending_for "oi")
        [mkRow true 0 tieRowA, mkRow true 0 tieRowB] =
      [mkRow true 0 tieRowB, mkRow true 0 tieRowA] := by
  refine ⟨rfl, rfl, ?_, ?_⟩
  · intro h
    have h2 : tieRowA.strike = tieRowB.strike := congrArg (fun s => s.raw.strike) h
    norm_num [tieRowA, tieRowB] at h2
  · simp [sort_values, ascending_for, List.insertionSort, List.orderedInsert,
      mkRow, tieRowA, tieRowB]

/-- Every sample of `linspace a b n` lies in `[a, b]`. -/
theorem linspace_mem_bounds (a b : ℚ) (hab : a ≤ b) (n : ℕ) (x : ℚ)
    (hx : x ∈ linspace a b n) : a ≤ x ∧ x ≤ b := by
  simp only [linspace, List.mem_map, List.mem_range] at hx
  rcases hx with ⟨i, hi', rfl⟩
  have hba : 0 ≤ b - a := sub_nonneg.mpr hab
  have hin : (i : ℚ) ≤ ((n - 1 : ℕ) : ℚ) := by
    exact_mod_cast Nat.le_pred_of_lt hi'
  constructor
  · have h0 : 0 ≤ (b - a) * (i : ℚ) / ((n - 1 : ℕ) : ℚ) := by positivity
    linarith
  · rcases Nat.eq_zero_or_pos (n - 1) with h0 | hpos
    · rw [h0]
      simp
      linarith
    · have hd : (0 : ℚ) < ((n - 1 : ℕ) : ℚ) := by exact_mod_cast hpos
      have hle : (b - a) * (i : ℚ) / ((n - 1 : ℕ) : ℚ) ≤ b - a := by
        rw [div_le_iff₀ hd]
        calc (b - a) * (i : ℚ) ≤ (b - a) * ((n - 1 : ℕ) : ℚ) :=
              mul_le_mul_of_nonneg_left hin hba
          _ = (b - a) * ((n - 1 : ℕ) : ℚ) := rfl
      linarith

/-- C9: the payoff chart samples its prices inside
`[0.8 * strike, 1.2 * strike]`; at each sample the put P/L is
`(strike - price) * 100 + premium * 100` below the strike and the flat
`premium * 100` at or above it, mirrored for calls; and for a put with
strike 100 and premium 3 the payoff is 1300 at price 90 and 300 at 110. -/
theorem C9_pl_chart :
    (∀ (strike premium : ℚ), 0 ≤ strike →
      (∀ pt ∈ generate_pl_chart strike premium "put",
        strike * (4 / 5) ≤ pt.1 ∧ pt.1 ≤ strike * (6 / 5) ∧
        pt.2 = (if pt.1 < strike then (strike - pt.1) * 100 + premium * 100
                else premium * 100)) ∧
      (∀ pt ∈ generate_pl_chart strike premium "call",
        strike * (4 / 5) ≤ pt.1 ∧ pt.1 ≤ strike * (6 / 5) ∧
        pt.2 = (if strike < pt.1 then (pt.1 - strike) * 100 + premium * 100
                else premium * 100))) ∧
    put_pl 100 3 90 = 1300 ∧ put_pl 100 3 110 = 300 := by
  refine ⟨fun strike premium hs => ?_, by norm_num [put_pl], by norm_num [put_pl]⟩
  have hab : strike * (4 / 5) ≤ strike * (6 / 5) := by nlinarith
  constructor
  · intro pt hpt
    unfold generate_pl_chart at hpt
    rcases List.mem_map.mp hpt with ⟨p, hp, rfl⟩
    have hb := linspace_mem_bounds _ _ hab 100 p hp
    exact ⟨hb.1, hb.2, by simp [put_pl]⟩
  · intro pt hpt
    unfold generate_pl_chart at hpt
    rcases List.mem_map.mp hpt with ⟨p, hp, rfl⟩
    have hb := linspace_mem_bounds _ _ hab 100 p hp
    refine ⟨hb.1, hb.2, ?_⟩
    have hflag : (("call" == "put") : Bool) = false := rfl
    simp [hflag, call_pl]

/-- Witness for C9 at strike 100, premium 3 (put side). -/
theorem C9_pl_chart_witness :
    0 ≤ (100 : ℚ) ∧
    ∀ pt ∈ generate_pl_chart 100 3 "put",
      (100 : ℚ) * (4 / 5) ≤ pt.1 ∧ pt.1 ≤ (100 : ℚ) * (6 / 5) ∧
      pt.2 = (if pt.1 < (100 : ℚ) then ((100 : ℚ) - pt.1) * 100 + 3 * 100
              else (3 : ℚ) * 100) :=
  ⟨by norm_num, (C9_pl_chart.1 100 3 (by norm_num)).1⟩

end Wheeler
